import Mathlib

/-!
Verification of the Ekşi Sözlük topic harvester (`eksi_harvester.py`).

The development shallow-embeds the pure core of the scraper:

* `normalize_topic_url`, `parse_entries_from_html`,
  `get_next_page_url_from_html` and the dedup/crawl loop of `scrape`
  are translated line by line from the source file.
* The Python standard library functions they call
  (`urllib.parse.urlparse` / `urljoin`, CPython 3.11) are modelled on
  `List Char`, following the stdlib source.  A `ValueError` raised by
  `urlsplit` is modelled as `none`.  The `_checknetloc` NFKC security
  check (which can only reject a netloc containing non-ASCII
  characters) is modelled conservatively: any non-ASCII netloc is
  rejected; every address the program actually builds has the ASCII
  netloc `eksisozluk.com`, so no claim is affected.
* HTML parsing by BeautifulSoup is an external collaborator; a parsed
  page is modelled by the `Doc` structure, which records, for each CSS
  selector the program uses, the elements that selector matched.
  The Playwright browser is modelled by an abstract
  `render : String → Option Doc` collaborator (`none` = fetch failure).
-/

/-! ## Python string primitives -/

/-- Python truthiness-style strip: drop leading characters satisfying `p`
(`str.lstrip` restricted to a character-set predicate). -/
def pyLStrip (p : Char → Bool) (l : List Char) : List Char :=
  l.dropWhile p

/-- Drop trailing characters satisfying `p` (`str.rstrip`). -/
def pyRStrip (p : Char → Bool) (l : List Char) : List Char :=
  (l.reverse.dropWhile p).reverse

/-- Python `str.strip(chars)` with the character set given as a predicate. -/
def pyStrip (p : Char → Bool) (l : List Char) : List Char :=
  pyRStrip p (pyLStrip p l)

/-- The character set stripped by Python `str.strip()` with no argument:
exactly the characters for which `str.isspace()` holds. -/
def pyIsSpace (c : Char) : Bool :=
  let n := c.toNat
  (9 <= n && n <= 13) || n == 32 || (28 <= n && n <= 31) || n == 0x85 ||
  n == 0xa0 || n == 0x1680 || (0x2000 <= n && n <= 0x200a) || n == 0x2028 ||
  n == 0x2029 || n == 0x202f || n == 0x205f || n == 0x3000

/-- Membership in Python `str.strip("/")`'s character set. -/
def isSlash (c : Char) : Bool := c == '/'

/-- Python `str.startswith(pre)`. -/
def pyStartswith (pre s : List Char) : Bool := pre.isPrefixOf s

/-- Python `str.isascii()` for a single character. -/
def pyIsAscii (c : Char) : Bool := c.toNat < 128

/-- Split at the first occurrence of `c`: Python `s.split(c, 1)`.
Returns the part before the first `c` and, when `c` occurs, the part
after it. -/
def splitFirst (c : Char) : List Char → List Char × Option (List Char)
  | [] => ([], none)
  | a :: as =>
    if a = c then ([], some as)
    else
      let r := splitFirst c as
      (a :: r.1, r.2)

/-- Split at the last occurrence of `c` (used for Python
`url.find(';', url.rfind('/'))`). -/
def rsplitLast (c : Char) (s : List Char) : Option (List Char × List Char) :=
  match splitFirst c s.reverse with
  | (_, none) => none
  | (b, some t) => some (t.reverse, b.reverse)

/-- Python `s.split(sep)` for a one-character separator. -/
def pySplitChar (c : Char) : List Char → List (List Char)
  | [] => [[]]
  | a :: as =>
    let r := pySplitChar c as
    if a = c then [] :: r
    else
      match r with
      | h :: t => (a :: h) :: t
      | [] => [[a]]

/-- Python `"/".join(parts)`. -/
def pyJoinSlash : List (List Char) → List Char
  | [] => []
  | [x] => x
  | x :: xs => x ++ '/' :: pyJoinSlash xs

/-! ## CPython 3.11 `urllib.parse`, modelled on `List Char` -/

/-- `_UNSAFE_URL_BYTES_TO_REMOVE`: `urlsplit` deletes every tab, CR and
LF from its inputs before parsing. -/
def removeUnsafe (l : List Char) : List Char :=
  l.filter (fun c => !(c == '\t' || c == '\r' || c == '\n'))

/-- `scheme_chars` from `urllib.parse`. -/
def schemeChars : List Char :=
  "abcdefghijklmnopqrstuvwxyzABCDEFGHIJKLMNOPQRSTUVWXYZ0123456789+-.".data

/-- `uses_relative` from `urllib.parse`. -/
def usesRelative : List (List Char) :=
  ["".data, "ftp".data, "http".data, "gopher".data, "nntp".data,
   "imap".data, "wais".data, "file".data, "https".data, "shttp".data,
   "mms".data, "prospero".data, "rtsp".data, "rtspu".data, "sftp".data,
   "svn".data, "svn+ssh".data, "ws".data, "wss".data]

/-- `uses_netloc` from `urllib.parse`. -/
def usesNetloc : List (List Char) :=
  ["".data, "ftp".data, "http".data, "gopher".data, "nntp".data,
   "telnet".data, "imap".data, "wais".data, "file".data, "mms".data,
   "https".data, "shttp".data, "snews".data, "prospero".data,
   "rtsp".data, "rtspu".data, "rsync".data, "svn".data, "svn+ssh".data,
   "sftp".data, "nfs".data, "git".data, "git+ssh".data, "ws".data,
   "wss".data]

/-- `uses_params` from `urllib.parse`. -/
def usesParams : List (List Char) :=
  ["".data, "ftp".data, "hdl".data, "prospero".data, "http".data,
   "imap".data, "https".data, "shttp".data, "rtsp".data, "rtspu".data,
   "sip".data, "sips".data, "mms".data, "sftp".data, "tel".data]

/-- Scheme detection in `urlsplit`: if the text before the first `:` is a
non-empty run of `scheme_chars` starting with an ASCII letter, it is the
(lower-cased) scheme; otherwise the default scheme is kept. -/
def schemeSplit (dflt url1 : List Char) : List Char × List Char :=
  match splitFirst ':' url1 with
  | (before, some after) =>
    if (match before.head? with
        | some c => pyIsAscii c && c.isAlpha
        | none => false) &&
       before.all (fun c => schemeChars.contains c) then
      (before.map Char.toLower, after)
    else (dflt, url1)
  | (_, none) => (dflt, url1)

/-- `_splitnetloc` plus the two netloc validity checks of `urlsplit`.
`none` models a raised `ValueError`.  The bracket check is verbatim; the
`_checknetloc` NFKC check is conservatively modelled as rejecting every
non-ASCII netloc (it can only ever reject non-ASCII netlocs). -/
def netlocSplit (url2 : List Char) : Option (List Char × List Char) :=
  match url2 with
  | '/' :: '/' :: rest =>
    let netloc := rest.takeWhile (fun c => !(c == '/' || c == '?' || c == '#'))
    let rest2 := rest.dropWhile (fun c => !(c == '/' || c == '?' || c == '#'))
    if (netloc.contains '[' && !netloc.contains ']') ||
       (netloc.contains ']' && !netloc.contains '[') then none
    else if !netloc.all pyIsAscii then none
    else some (netloc, rest2)
  | _ => some ([], url2)

/-- The fragment and query splits of `urlsplit` (with
`allow_fragments=True`, the only mode the program uses): split off the
fragment at the first `#`, then the query at the first `?`.
Returns `(path, query, fragment)`. -/
def splitFragQuery (url3 : List Char) : List Char × List Char × List Char :=
  let f := splitFirst '#' url3
  let q := splitFirst '?' f.1
  (q.1, q.2.getD [], f.2.getD [])

/-- Result of `urlsplit`. -/
structure SplitParts where
  scheme : List Char
  netloc : List Char
  path : List Char
  query : List Char
  fragment : List Char
deriving DecidableEq

/-- Result of `urlparse`. -/
structure UrlParts where
  scheme : List Char
  netloc : List Char
  path : List Char
  params : List Char
  query : List Char
  fragment : List Char
deriving DecidableEq

/-- CPython 3.11 `urlsplit(url, scheme)` (with `allow_fragments=True`);
`none` models a raised `ValueError`. -/
def urlsplitCore (scheme0 url0 : List Char) : Option SplitParts :=
  let url1 := removeUnsafe url0
  let scheme1 := removeUnsafe scheme0
  let su := schemeSplit scheme1 url1
  match netlocSplit su.2 with
  | none => none
  | some (netloc, url3) =>
    let pqf := splitFragQuery url3
    some ⟨su.1, netloc, pqf.1, pqf.2.1, pqf.2.2⟩

/-- `_splitparams`.  Only called when `;` occurs in the path (guarded in
`urlparseCore`), matching the call site in `urlparse`. -/
def pySplitparams (url : List Char) : List Char × List Char :=
  match rsplitLast '/' url with
  | some (pre, post) =>
    match splitFirst ';' post with
    | (b, some a) => (pre ++ '/' :: b, a)
    | (_, none) => (url, [])
  | none =>
    match splitFirst ';' url with
    | (b, some a) => (b, a)
    | (_, none) => (url, [])

/-- CPython 3.11 `urlparse(url, scheme)`. -/
def urlparseCore (scheme0 url0 : List Char) : Option UrlParts :=
  match urlsplitCore scheme0 url0 with
  | none => none
  | some r =>
    if usesParams.contains r.scheme && r.path.contains ';' then
      let pp := pySplitparams r.path
      some ⟨r.scheme, r.netloc, pp.1, pp.2, r.query, r.fragment⟩
    else some ⟨r.scheme, r.netloc, r.path, [], r.query, r.fragment⟩

/-- `urlunsplit`. -/
def urlunsplitCore (scheme netloc url query fragment : List Char) : List Char :=
  let url1 :=
    if !netloc.isEmpty ||
       (!scheme.isEmpty && usesNetloc.contains scheme &&
        !(url.take 2 == ['/', '/'])) then
      '/' :: '/' :: (netloc ++
        (if !url.isEmpty && !(url.head? == some '/') then '/' :: url else url))
    else url
  let url2 := if !scheme.isEmpty then scheme ++ ':' :: url1 else url1
  let url3 := if !query.isEmpty then url2 ++ '?' :: query else url2
  if !fragment.isEmpty then url3 ++ '#' :: fragment else url3

/-- `urlunparse`. -/
def urlunparseCore (p : UrlParts) : List Char :=
  let url := if !p.params.isEmpty then p.path ++ ';' :: p.params else p.path
  urlunsplitCore p.scheme p.netloc url p.query p.fragment

/-- Keep the first and last elements, drop empty strings in between:
Python `segments[1:-1] = filter(None, segments[1:-1])`. -/
def filterMiddle (l : List (List Char)) : List (List Char) :=
  match l with
  | [] => []
  | a :: rest =>
    match rest.getLast? with
    | none => [a]
    | some x => a :: (rest.dropLast.filter (fun s => !s.isEmpty) ++ [x])

/-- The `..` / `.` resolution loop of `urljoin`. -/
def resolveSegs (acc : List (List Char)) : List (List Char) → List (List Char)
  | [] => acc
  | s :: rest =>
    if s == "..".data then resolveSegs acc.dropLast rest
    else if s == ".".data then resolveSegs acc rest
    else resolveSegs (acc ++ [s]) rest

/-- CPython 3.11 `urljoin(base, url)`; `none` models a raised
`ValueError`. -/
def urljoin (base url : String) : Option String :=
  if base = "" then some url
  else if url = "" then some base
  else
    match urlparseCore [] base.data with
    | none => none
    | some b =>
      match urlparseCore b.scheme url.data with
      | none => none
      | some r =>
        if r.scheme != b.scheme || !usesRelative.contains r.scheme then
          some url
        else if usesNetloc.contains r.scheme && !r.netloc.isEmpty then
          some (String.mk (urlunparseCore r))
        else
          let netloc := if usesNetloc.contains r.scheme then b.netloc else r.netloc
          if r.path.isEmpty && r.params.isEmpty then
            let query := if r.query.isEmpty then b.query else r.query
            some (String.mk (urlunparseCore
              ⟨r.scheme, netloc, b.path, b.params, query, r.fragment⟩))
          else
            let baseParts := pySplitChar '/' b.path
            let baseParts :=
              if baseParts.getLast?.getD [] != ([] : List Char) then
                baseParts.dropLast
              else baseParts
            let segments :=
              if r.path.head? == some '/' then pySplitChar '/' r.path
              else filterMiddle (baseParts ++ pySplitChar '/' r.path)
            let resolved := resolveSegs [] segments
            let resolved :=
              if segments.getLast?.getD [] == ".".data ||
                 segments.getLast?.getD [] == "..".data then
                resolved ++ [[]]
              else resolved
            let joined := pyJoinSlash resolved
            let joined := if joined.isEmpty then ['/'] else joined
            some (String.mk (urlunparseCore
              ⟨r.scheme, netloc, joined, r.params, r.query, r.fragment⟩))

/-! ## The harvester source (`eksi_harvester.py`) -/

/-- `BASE = "https://eksisozluk.com"`. -/
def BASE : String := "https://eksisozluk.com"

/-- `normalize_topic_url` (lines 27-32): normalize a slug or a full URL
to a canonical first-page URL with `?p=1`.  `none` models the
`ValueError` that `urlparse` can raise on a malformed netloc. -/
def normalize_topic_url (topic : String) : Option String :=
  if pyStartswith "http".data topic.data then
    match urlparseCore [] topic.data with
    | none => none
    | some r =>
      some (String.mk (BASE.data ++ '/' :: (pyStrip isSlash r.path ++ "?p=1".data)))
  else
    some (String.mk (BASE.data ++ '/' ::
      (pyStrip isSlash (pyStrip pyIsSpace topic.data) ++ "?p=1".data)))

-- Sanity anchors against CPython 3.11 behaviour (checked by execution
-- of the real functions on the same inputs).
example : normalize_topic_url "python--12345" =
    some "https://eksisozluk.com/python--12345?p=1" := by decide
example : normalize_topic_url "https://eksisozluk.com/python--12345?p=7" =
    some "https://eksisozluk.com/python--12345?p=1" := by decide
example : normalize_topic_url "  /slug/  " =
    some "https://eksisozluk.com/slug?p=1" := by decide
example : normalize_topic_url "a?b" =
    some "https://eksisozluk.com/a?b?p=1" := by decide
example : normalize_topic_url "https://eksisozluk.com/a?b?p=1" =
    some "https://eksisozluk.com/a?p=1" := by decide
example : normalize_topic_url "http://h/a;x/" =
    some "https://eksisozluk.com/a;x?p=1" := by decide
example : urljoin "https://eksisozluk.com/python--12345?p=1" "/python--12345?p=2" =
    some "https://eksisozluk.com/python--12345?p=2" := by decide
example : urljoin "https://eksisozluk.com/python--12345?p=1" "x/y" =
    some "https://eksisozluk.com/x/y" := by decide
example : urljoin "https://eksisozluk.com/a/b?q" "../c" =
    some "https://eksisozluk.com/c" := by decide
example : urljoin "https://eksisozluk.com/a" "//other.com/z" =
    some "https://other.com/z" := by decide
example : urljoin "https://eksisozluk.com/a" "b#f" =
    some "https://eksisozluk.com/b#f" := by decide
example : urljoin "https://eksisozluk.com/a/b/" "./" =
    some "https://eksisozluk.com/a/b/" := by decide
example : urljoin "https://eksisozluk.com/a?x#y" "?q" =
    some "https://eksisozluk.com/a?q" := by decide
example : urljoin "http://h/a;x/" "p;q/r" =
    some "http://h/a;x/p;q/r" := by decide
example : urljoin "https://e.com/a" "mailto:x@y" = some "mailto:x@y" := by decide
example : urlparseCore [] "http://h/a;x".data =
    some ⟨"http".data, "h".data, "/a".data, "x".data, [], []⟩ := by decide
example : urlparseCore [] "http://h#f?q".data =
    some ⟨"http".data, "h".data, [], [], [], "f?q".data⟩ := by decide
example : urlparseCore [] "http://[::1x".data = none := by decide

/-! ## Parsed-page model

BeautifulSoup is an external collaborator.  A parsed page (`Doc`)
records what each CSS selector used by the program matched; an element
is an `Anchor` (its `href` attribute, `none` when absent, and its
`get_text` result) or a `TextEl` (its `get_text` result). -/

/-- An `<a>` element: `href` is `a.get("href")` (`none` when the
attribute is absent) and `text` is `a.get_text(strip=True)`. -/
structure Anchor where
  href : Option String
  text : String
deriving DecidableEq

/-- A content element; `text` is `get_text("\n", strip=True)`. -/
structure TextEl where
  text : String
deriving DecidableEq

/-- One candidate `<li>` container.  Each field holds the result of the
corresponding `select_one` call inside the loop of
`parse_entries_from_html`. -/
structure Li where
  dataId : Option String          -- li.get("data-id")
  contentPrimary : Option TextEl  -- li.select_one(".content")
  contentFallback : Option TextEl -- li.select_one(".entry-content")
  authorPrimary : Option Anchor   -- li.select_one("a.entry-author")
  authorFallback : Option Anchor  -- li.select_one("a[data-author]")
  datePrimary : Option Anchor     -- li.select_one("a.entry-date")
  dateFallback : Option Anchor    -- li.select_one("a.permalink")
deriving DecidableEq

/-- A parsed page: the two container node lists and the two
next-page-link selectors of `get_next_page_url_from_html`. -/
structure Doc where
  liDataId : List Li       -- soup.select("li[data-id]")
  liStream : List Li       -- soup.select("li[class*=stream-item]")
  relNext : Option Anchor  -- soup.select_one('a[rel="next"]')
  pagerNext : Option Anchor -- soup.select_one("div.pager a.next")
deriving DecidableEq

/-- One extracted record (the dict built at lines 63-72).  Fields whose
Python value can be `None` (the `.get("href")` fall-through) are
`Option String`; `none` models Python `None`, `some ""` an empty
string. -/
structure EntryRecord where
  entry_id : String
  author : String
  author_url : Option String
  date : String
  permalink : Option String
  content : String
deriving DecidableEq

/-- The loop body of `parse_entries_from_html` (lines 44-72) for one
`<li>` container. -/
def extract_entry (li : Li) : EntryRecord :=
  let entry_id := li.dataId.getD ""    -- li.get("data-id") or ""
  let content_el := li.contentPrimary <|> li.contentFallback
  let content := match content_el with
    | some el => el.text
    | none => ""
  let author_el := li.authorPrimary <|> li.authorFallback
  let author := match author_el with
    | some el => el.text
    | none => ""
  let author_url : Option String := match author_el with
    | some el =>
      if pyStartswith "/".data (el.href.getD "").data then
        some (BASE ++ el.href.getD "")
      else el.href
    | none => some ""
  let date_el := li.datePrimary <|> li.dateFallback
  let date_text := match date_el with
    | some el => el.text
    | none => ""
  let permalink : Option String := match date_el with
    | some el =>
      if pyStartswith "/".data (el.href.getD "").data then
        some (BASE ++ el.href.getD "")
      else el.href
    | none => some ""
  ⟨entry_id, author, author_url, date_text, permalink, content⟩

/-- `parse_entries_from_html` (lines 35-73): the primary node list, or
the fallback list when the primary is empty (Python `select(A) or
select(B)`), mapped through the loop body in document order. -/
def parse_entries_from_html (d : Doc) : List EntryRecord :=
  (if d.liDataId.isEmpty then d.liStream else d.liDataId).map extract_entry

/-- `get_next_page_url_from_html` (lines 76-82).  The outer `Option`
models an uncaught exception escaping the function (`urljoin` can raise
`ValueError`); `some none` is the function returning `None`;
`some (some u)` is the function returning the address `u`. -/
def get_next_page_url_from_html (d : Doc) (current_url : String) :
    Option (Option String) :=
  match d.relNext <|> d.pagerNext with
  | some a =>
    match a.href with
    | some h => if h = "" then some none else (urljoin current_url h).map some
    | none => some none
  | none => some none

/-- The per-page dedup loop of `scrape` (lines 166-173): walk the
extracted records; a record is appended to `all_entries` (and its id to
`seen_ids`, with `new_count` bumped) exactly when its `entry_id` is
non-empty and unseen.  `seen_ids` is a Python `set`, modelled as a list
queried by membership. -/
def dedupPage (seen : List String) (acc : List EntryRecord) (n : Nat) :
    List EntryRecord → List String × List EntryRecord × Nat
  | [] => (seen, acc, n)
  | e :: es =>
    if e.entry_id ≠ "" ∧ e.entry_id ∉ seen then
      dedupPage (e.entry_id :: seen) (acc ++ [e]) (n + 1) es
    else dedupPage seen acc n es

/-- Why the crawl loop stopped: `max_pages` reached (line 181) or no
next link found (line 187). -/
inductive StopReason where
  | budget
  | endOfPages
deriving DecidableEq

/-- Final crawl state when the loop exits. -/
structure CrawlResult where
  entries : List EntryRecord
  pages_visited : Nat
  reason : StopReason
deriving DecidableEq

/-- `if max_pages and pages_visited >= max_pages` (line 181):
`max_pages` is falsy when `None` or `0`. -/
def maxPagesHit (max_pages : Option Int) (pages_visited : Nat) : Bool :=
  match max_pages with
  | some m => m != 0 && decide (m ≤ (pages_visited : Int))
  | none => false

/-- The `while True` loop of `scrape` (lines 158-195).  `render` is the
Playwright collaborator (`page.content()` for the currently loaded
address); its failure, like any other uncaught error, makes the whole run
abort (`none`).  `fuel` bounds the recursion; `none` also results when
fuel runs out before the loop exits. -/
def scrapeLoop (render : String → Option Doc) (max_pages : Option Int) :
    Nat → String → Nat → List String → List EntryRecord → Option CrawlResult
  | 0, _, _, _, _ => none
  | Nat.succ fuel, current_url, pages_visited, seen_ids, all_entries =>
    match render current_url with
    | none => none
    | some doc =>
      let pv := pages_visited + 1
      let entries := parse_entries_from_html doc
      let sa := dedupPage seen_ids all_entries 0 entries
      if maxPagesHit max_pages pv then some ⟨sa.2.1, pv, .budget⟩
      else
        match get_next_page_url_from_html doc current_url with
        | none => none
        | some next_url =>
          if next_url.getD "" = "" then some ⟨sa.2.1, pv, .endOfPages⟩
          else
            scrapeLoop render max_pages fuel (next_url.getD "") pv sa.1 sa.2.1

/-- `scrape` (lines 102-205) up to the final file write: normalize the
topic, then run the crawl loop from the start address with empty state. -/
def scrape (render : String → Option Doc) (max_pages : Option Int)
    (fuel : Nat) (topic : String) : Option CrawlResult :=
  match normalize_topic_url topic with
  | none => none
  | some start_url => scrapeLoop render max_pages fuel start_url 0 [] []

/-! ## JSON output model

`json.dump(all_entries, f, ensure_ascii=False, indent=2)` (line 200)
serializes the accumulated list.  The JSON value written is modelled as
a tree; a Python `dict` keeps insertion order, so the keys appear in
the order they were inserted at lines 63-72. -/

inductive JValue where
  | jnull : JValue
  | jstr : String → JValue
  | jarr : List JValue → JValue
  | jobj : List (String × JValue) → JValue

/-- A Python value that is a string or `None`, as JSON. -/
def jsonOfOpt : Option String → JValue
  | none => JValue.jnull
  | some s => JValue.jstr s

/-- The JSON object written for one record. -/
def entry_to_json (e : EntryRecord) : JValue :=
  JValue.jobj
    [("entry_id", JValue.jstr e.entry_id),
     ("author", JValue.jstr e.author),
     ("author_url", jsonOfOpt e.author_url),
     ("date", JValue.jstr e.date),
     ("permalink", jsonOfOpt e.permalink),
     ("content", JValue.jstr e.content)]

/-- The JSON document written once at run completion (line 200). -/
def dump_output (es : List EntryRecord) : JValue :=
  JValue.jarr (es.map entry_to_json)

/-! ## The 3-page fixture of the spec's end-to-end scenario -/

/-- A minimal entry container carrying only an identity attribute. -/
def mkLi (i : String) : Li := ⟨some i, none, none, none, none, none, none⟩

def fixStartUrl : String := "https://eksisozluk.com/python--12345?p=1"
def fixPage2Url : String := "https://eksisozluk.com/python--12345?p=2"
def fixPage3Url : String := "https://eksisozluk.com/python--12345?p=3"

/-- Page 1: entries 1,2,3 and a relative rel="next" link to page 2. -/
def fixDoc1 : Doc :=
  ⟨[mkLi "1", mkLi "2", mkLi "3"], [],
   some ⟨some "/python--12345?p=2", "next"⟩, none⟩

/-- Page 2: entries 3,4,5 (3 repeats) and a rel="next" link to page 3. -/
def fixDoc2 : Doc :=
  ⟨[mkLi "3", mkLi "4", mkLi "5"], [],
   some ⟨some "/python--12345?p=3", "next"⟩, none⟩

/-- Page 3: entry 6 and no next link in either selector. -/
def fixDoc3 : Doc := ⟨[mkLi "6"], [], none, none⟩

/-- The fixture fetch collaborator. -/
def fixRender (u : String) : Option Doc :=
  if u = fixStartUrl then some fixDoc1
  else if u = fixPage2Url then some fixDoc2
  else if u = fixPage3Url then some fixDoc3
  else none

/-- The record extracted from a minimal container with identity `i`. -/
def fixRec (i : String) : EntryRecord := ⟨i, "", some "", "", some "", ""⟩

example : scrape fixRender none 10 "python--12345" =
    some ⟨[fixRec "1", fixRec "2", fixRec "3", fixRec "4", fixRec "5",
           fixRec "6"], 3, .endOfPages⟩ := by decide
example : scrape fixRender (some 1) 10 "python--12345" =
    some ⟨[fixRec "1", fixRec "2", fixRec "3"], 1, .budget⟩ := by decide

/-! ## Properties of the per-page dedup step -/

/-- The accumulator and counter of `dedupPage` are passed through
untouched: the records appended and the count are independent of them. -/
theorem dedupPage_append (es : List EntryRecord) :
    ∀ seen acc n, dedupPage seen acc n es =
      ((dedupPage seen [] 0 es).1,
       acc ++ (dedupPage seen [] 0 es).2.1,
       n + (dedupPage seen [] 0 es).2.2) := by
  induction es with
  | nil => intro seen acc n; simp [dedupPage]
  | cons e es ih =>
    intro seen acc n
    simp only [dedupPage, List.nil_append, Nat.zero_add]
    by_cases h : e.entry_id ≠ "" ∧ e.entry_id ∉ seen
    · rw [if_pos h, if_pos h, ih (e.entry_id :: seen) (acc ++ [e]) (n + 1),
        ih (e.entry_id :: seen) [e] 1]
      simp [List.append_assoc, Nat.add_assoc]
    · rw [if_neg h, if_neg h]
      exact ih seen acc n

/-- An identity appears among the newly accepted records of a page
exactly when it is non-empty, unseen, and occurs on the page. -/
theorem dedupPage_mem_ids (es : List EntryRecord) :
    ∀ seen i, (i ∈ (dedupPage seen [] 0 es).2.1.map (fun e => e.entry_id)) ↔
      (i ≠ "" ∧ i ∉ seen ∧ i ∈ es.map (fun e => e.entry_id)) := by
  induction es with
  | nil => intro seen i; simp [dedupPage]
  | cons e es ih =>
    intro seen i
    simp only [dedupPage, List.nil_append, Nat.zero_add]
    by_cases h : e.entry_id ≠ "" ∧ e.entry_id ∉ seen
    · rw [if_pos h, dedupPage_append es (e.entry_id :: seen) [e] 1]
      simp only [List.map_append, List.map_cons, List.map_nil,
        List.mem_append, List.mem_cons, List.not_mem_nil, or_false,
        List.mem_map]
      constructor
      · rintro (rfl | hm)
        · exact ⟨h.1, h.2, Or.inl rfl⟩
        · have hm2 := (ih (e.entry_id :: seen) i).mp (by simpa using hm)
          refine ⟨hm2.1, fun hs => hm2.2.1 (List.mem_cons_of_mem _ hs), ?_⟩
          right
          simpa using hm2.2.2
      · rintro ⟨h1, h2, (rfl | h3)⟩
        · exact Or.inl rfl
        · by_cases hie : i = e.entry_id
          · exact Or.inl hie
          · refine Or.inr ?_
            have := (ih (e.entry_id :: seen) i).mpr
              ⟨h1, by simp [hie, h2], by simpa using h3⟩
            simpa using this
    · rw [if_neg h]
      rw [ih seen i]
      simp only [List.map_cons, List.mem_cons]
      constructor
      · rintro ⟨h1, h2, h3⟩
        exact ⟨h1, h2, Or.inr h3⟩
      · rintro ⟨h1, h2, (rfl | h3)⟩
        · exact absurd ⟨h1, h2⟩ h
        · exact ⟨h1, h2, h3⟩

/-- The identities of the newly accepted records of a page are pairwise
distinct. -/
theorem dedupPage_ids_nodup (es : List EntryRecord) :
    ∀ seen, ((dedupPage seen [] 0 es).2.1.map (fun e => e.entry_id)).Nodup := by
  induction es with
  | nil => intro seen; simp [dedupPage]
  | cons e es ih =>
    intro seen
    simp only [dedupPage, List.nil_append, Nat.zero_add]
    by_cases h : e.entry_id ≠ "" ∧ e.entry_id ∉ seen
    · rw [if_pos h, dedupPage_append es (e.entry_id :: seen) [e] 1]
      simp only [List.map_append, List.map_cons, List.map_nil]
      rw [List.nodup_append]
      refine ⟨by simp, ih _, ?_⟩
      intro i hi hj
      have hieq : i = e.entry_id := by simpa using hi
      rw [hieq] at hj
      have := (dedupPage_mem_ids es (e.entry_id :: seen) e.entry_id).mp hj
      exact this.2.1 (List.mem_cons_self _ _)
    · rw [if_neg h]
      exact ih seen

/-- Every newly accepted record has a non-empty identity. -/
theorem dedupPage_entry_id_ne (es : List EntryRecord) (seen : List String) :
    ∀ e ∈ (dedupPage seen [] 0 es).2.1, e.entry_id ≠ "" := by
  intro e he
  have : e.entry_id ∈ (dedupPage seen [] 0 es).2.1.map (fun e => e.entry_id) :=
    List.mem_map_of_mem _ he
  exact ((dedupPage_mem_ids es seen e.entry_id).mp this).1

/-- The number of records a page contributes equals the number of
distinct non-empty identities on the page that were not seen before. -/
theorem dedupPage_length (es : List EntryRecord) (seen : List String) :
    (dedupPage seen [] 0 es).2.1.length =
      ((es.map (fun e => e.entry_id)).toFinset.filter
        (fun i => i ≠ "" ∧ i ∉ seen)).card := by
  have hnd := dedupPage_ids_nodup es seen
  have hlen : (dedupPage seen [] 0 es).2.1.length =
      ((dedupPage seen [] 0 es).2.1.map (fun e => e.entry_id)).length := by
    simp
  rw [hlen, ← List.toFinset_card_of_nodup hnd]
  congr 1
  ext i
  simp only [List.mem_toFinset, Finset.mem_filter, dedupPage_mem_ids]
  tauto

/-! ## Crawl loop invariant -/

/-- Invariant tying the loop state together: every accumulated record
has a non-empty identity, identities are pairwise distinct, and every
accumulated identity has been recorded in `seen_ids`. -/
def CrawlInv (seen : List String) (acc : List EntryRecord) : Prop :=
  (∀ e ∈ acc, e.entry_id ≠ "") ∧
  (acc.map (fun e => e.entry_id)).Nodup ∧
  (∀ e ∈ acc, e.entry_id ∈ seen)

/-- The per-page dedup step preserves the crawl invariant. -/
theorem dedupPage_inv (es : List EntryRecord) :
    ∀ seen acc n, CrawlInv seen acc →
      CrawlInv (dedupPage seen acc n es).1 (dedupPage seen acc n es).2.1 := by
  induction es with
  | nil => intro seen acc n h; simpa [dedupPage] using h
  | cons e es ih =>
    intro seen acc n h
    simp only [dedupPage]
    by_cases hc : e.entry_id ≠ "" ∧ e.entry_id ∉ seen
    · rw [if_pos hc]
      apply ih
      obtain ⟨h1, h2, h3⟩ := h
      refine ⟨?_, ?_, ?_⟩
      · intro x hx
        rcases List.mem_append.mp hx with hx | hx
        · exact h1 x hx
        · rw [List.mem_singleton] at hx
          rw [hx]
          exact hc.1
      · rw [List.map_append, List.nodup_append]
        refine ⟨h2, by simp, ?_⟩
        intro i hi hj
        simp only [List.map_cons, List.map_nil, List.mem_singleton] at hj
        rw [hj] at hi
        rcases List.mem_map.mp hi with ⟨x, hx, hxe⟩
        exact hc.2 (hxe ▸ h3 x hx)
      · intro x hx
        rcases List.mem_append.mp hx with hx | hx
        · exact List.mem_cons_of_mem _ (h3 x hx)
        · rw [List.mem_singleton] at hx
          rw [hx]
          exact List.mem_cons_self _ _
    · rw [if_neg hc]
      exact ih seen acc n h

/-- Any successful run of the crawl loop, started in a state satisfying
the invariant, ends with records that all have non-empty, pairwise
distinct identities. -/
theorem scrapeLoop_inv (render : String → Option Doc) (mp : Option Int) :
    ∀ fuel url pv seen acc r, CrawlInv seen acc →
      scrapeLoop render mp fuel url pv seen acc = some r →
      (∀ e ∈ r.entries, e.entry_id ≠ "") ∧
      (r.entries.map (fun e => e.entry_id)).Nodup := by
  intro fuel
  induction fuel with
  | zero =>
    intro url pv seen acc r _ h
    simp [scrapeLoop] at h
  | succ fuel ih =>
    intro url pv seen acc r hinv h
    simp only [scrapeLoop] at h
    cases hr : render url with
    | none => rw [hr] at h; simp at h
    | some doc =>
      rw [hr] at h
      simp only at h
      have hinv2 := dedupPage_inv (parse_entries_from_html doc) seen acc 0 hinv
      by_cases hb : maxPagesHit mp (pv + 1) = true
      · rw [if_pos hb] at h
        obtain rfl := Option.some.inj h
        exact ⟨hinv2.1, hinv2.2.1⟩
      · rw [if_neg hb] at h
        cases hn : get_next_page_url_from_html doc url with
        | none => rw [hn] at h; simp at h
        | some nu =>
          rw [hn] at h
          simp only at h
          by_cases hnu : nu.getD "" = ""
          · rw [if_pos hnu] at h
            obtain rfl := Option.some.inj h
            exact ⟨hinv2.1, hinv2.2.1⟩
          · rw [if_neg hnu] at h
            exact ih _ _ _ _ _ hinv2 h

/-! ## Budget behaviour of the crawl loop -/

/-- A budget of `0` behaves exactly like no budget at all: `max_pages`
is tested for truthiness first, and `0` is falsy. -/
theorem scrapeLoop_budget_zero (render : String → Option Doc) :
    ∀ fuel url pv seen acc,
      scrapeLoop render (some 0) fuel url pv seen acc =
      scrapeLoop render none fuel url pv seen acc := by
  intro fuel
  induction fuel with
  | zero => intro url pv seen acc; rfl
  | succ fuel ih =>
    intro url pv seen acc
    simp only [scrapeLoop]
    cases hr : render url with
    | none => rfl
    | some doc =>
      simp only [maxPagesHit, bne_self_eq_false, Bool.false_and,
        Bool.false_eq_true, if_false]
      cases hn : get_next_page_url_from_html doc url with
      | none => rfl
      | some nu =>
        simp only
        by_cases hnu : nu.getD "" = ""
        · rw [if_pos hnu, if_pos hnu]
        · rw [if_neg hnu, if_neg hnu, ih]

/-- Without a budget the loop can only stop because pagination ended. -/
theorem scrapeLoop_none_reason (render : String → Option Doc) :
    ∀ fuel url pv seen acc r,
      scrapeLoop render none fuel url pv seen acc = some r →
      r.reason = StopReason.endOfPages := by
  intro fuel
  induction fuel with
  | zero => intro url pv seen acc r h; simp [scrapeLoop] at h
  | succ fuel ih =>
    intro url pv seen acc r h
    simp only [scrapeLoop] at h
    cases hr : render url with
    | none => rw [hr] at h; simp at h
    | some doc =>
      rw [hr] at h
      simp only [maxPagesHit, Bool.false_eq_true, if_false] at h
      cases hn : get_next_page_url_from_html doc url with
      | none => rw [hn] at h; simp at h
      | some nu =>
        rw [hn] at h
        simp only at h
        by_cases hnu : nu.getD "" = ""
        · rw [if_pos hnu] at h
          obtain rfl := Option.some.inj h
          rfl
        · rw [if_neg hnu] at h
          exact ih _ _ _ _ _ h

/-- When a non-zero budget is reached by the freshly incremented page
counter, the loop stops right after deduplicating the current page,
without consulting the pagination resolver. -/
theorem scrapeLoop_budget_stop (render : String → Option Doc) (m : Int) :
    ∀ fuel url pv seen acc doc, render url = some doc → m ≠ 0 →
      m ≤ ((pv + 1 : Nat) : Int) →
      scrapeLoop render (some m) (fuel + 1) url pv seen acc =
        some ⟨(dedupPage seen acc 0 (parse_entries_from_html doc)).2.1,
              pv + 1, StopReason.budget⟩ := by
  intro fuel url pv seen acc doc hr hm hle
  simp only [scrapeLoop, hr]
  have hb : maxPagesHit (some m) (pv + 1) = true := by
    simp only [maxPagesHit, Bool.and_eq_true, bne_iff_ne, ne_eq,
      decide_eq_true_eq]
    exact ⟨hm, by omega⟩
  rw [if_pos hb]

/-! ## Additional fixtures for counterexamples -/

/-- A container in which every selector missed (all fields absent). -/
def blankLi : Li := ⟨none, none, none, none, none, none, none⟩

/-- A page whose two containers both lack the identity attribute (they
matched the fallback stream-item selector). -/
def emptyIdDoc : Doc := ⟨[], [blankLi, blankLi], none, none⟩

/-- Fetch collaborator serving only `emptyIdDoc` at the start address. -/
def emptyIdRender (u : String) : Option Doc :=
  if u = fixStartUrl then some emptyIdDoc else none

/-- A container whose author anchor exists but carries no `href`. -/
def noHrefLi : Li := ⟨some "7", none, none, some ⟨none, "birisi"⟩, none, none, none⟩

/-! ## Claim C1 -/

/-- C1, counterexample: a page with two empty-identity records.  The
extractor does yield the two records, but the crawl loop appends
neither: the accepted total is `0`, not `0` distinct non-empty
identities plus `2` empty-identity records.  (`eid and eid not in
seen_ids` is false for an empty `eid`, so the record is skipped.) -/
theorem claim_C1_counterexample :
    (parse_entries_from_html emptyIdDoc).length = 2 ∧
    (∀ e ∈ parse_entries_from_html emptyIdDoc, e.entry_id = "") ∧
    scrape emptyIdRender none 5 "python--12345" =
      some ⟨[], 1, StopReason.endOfPages⟩ := by
  decide

/-- C1, amended: a record with an empty `entry_id` is never appended by
the dedup step; the accepted records carry exactly the distinct
non-empty identities of the page that were not already seen, so the
accepted count is the number of such identities (empty-identity records
contribute nothing). -/
theorem claim_C1_amended : ∀ (es : List EntryRecord) (seen : List String),
    (∀ e ∈ (dedupPage seen [] 0 es).2.1, e.entry_id ≠ "") ∧
    (∀ i, (i ∈ (dedupPage seen [] 0 es).2.1.map (fun e => e.entry_id)) ↔
      (i ≠ "" ∧ i ∉ seen ∧ i ∈ es.map (fun e => e.entry_id))) ∧
    (dedupPage seen [] 0 es).2.1.length =
      ((es.map (fun e => e.entry_id)).toFinset.filter
        (fun i => i ≠ "" ∧ i ∉ seen)).card :=
  fun es seen =>
    ⟨dedupPage_entry_id_ne es seen, dedupPage_mem_ids es seen,
     dedupPage_length es seen⟩

/-- C1, witness: the amended count identity instantiated on the
empty-identity page, where it evaluates to `0`. -/
theorem claim_C1_witness :
    (dedupPage [] [] 0 (parse_entries_from_html emptyIdDoc)).2.1.length =
      (((parse_entries_from_html emptyIdDoc).map
          (fun e => e.entry_id)).toFinset.filter
        (fun i => i ≠ "" ∧ i ∉ ([] : List String))).card ∧
    (dedupPage [] [] 0 (parse_entries_from_html emptyIdDoc)).2.1.length = 0 :=
  ⟨(claim_C1_amended (parse_entries_from_html emptyIdDoc) []).2.2, by decide⟩

/-! ## Claim C2 -/

/-- C2, counterexample: for a container whose author anchor has no
`href` attribute, the record's `author_url` is Python `None`
(modelled `none`), not the empty string: `author_el.get("href")`
returns `None` in the fall-through branch. -/
theorem claim_C2_counterexample :
    parse_entries_from_html ⟨[noHrefLi], [], none, none⟩ =
      [⟨"7", "birisi", none, "", some "", ""⟩] ∧
    (none : Option String) ≠ some "" := by
  decide

/-- C2, amended: relative links (href beginning with `/`) are rewritten
against the fixed base origin and absolute links pass through unchanged,
for both `author_url` and `permalink`; an absent *element* yields the
empty string; but an element that is present without an `href`
attribute yields null (`None`), not the empty string. -/
theorem claim_C2_amended : ∀ li : Li,
    (((li.authorPrimary <|> li.authorFallback) = none →
       (extract_entry li).author_url = some "") ∧
     (∀ a hs, (li.authorPrimary <|> li.authorFallback) = some a →
       a.href = some hs → pyStartswith "/".data hs.data = true →
       (extract_entry li).author_url = some (BASE ++ hs)) ∧
     (∀ a hs, (li.authorPrimary <|> li.authorFallback) = some a →
       a.href = some hs → pyStartswith "/".data hs.data = false →
       (extract_entry li).author_url = some hs) ∧
     (∀ a, (li.authorPrimary <|> li.authorFallback) = some a →
       a.href = none → (extract_entry li).author_url = none)) ∧
    (((li.datePrimary <|> li.dateFallback) = none →
       (extract_entry li).permalink = some "") ∧
     (∀ a hs, (li.datePrimary <|> li.dateFallback) = some a →
       a.href = some hs → pyStartswith "/".data hs.data = true →
       (extract_entry li).permalink = some (BASE ++ hs)) ∧
     (∀ a hs, (li.datePrimary <|> li.dateFallback) = some a →
       a.href = some hs → pyStartswith "/".data hs.data = false →
       (extract_entry li).permalink = some hs) ∧
     (∀ a, (li.datePrimary <|> li.dateFallback) = some a →
       a.href = none → (extract_entry li).permalink = none)) := by
  intro li
  have h0 : pyStartswith "/".data ("" : String).data = false := by decide
  refine ⟨⟨?_, ?_, ?_, ?_⟩, ?_, ?_, ?_, ?_⟩
  · intro h; simp [extract_entry, h]
  · intro a hs ha hh hp; simp [extract_entry, ha, hh, hp]
  · intro a hs ha hh hp; simp [extract_entry, ha, hh, hp]
  · intro a ha hh; simp [extract_entry, ha, hh, h0]
  · intro h; simp [extract_entry, h]
  · intro a hs ha hh hp; simp [extract_entry, ha, hh, hp]
  · intro a hs ha hh hp; simp [extract_entry, ha, hh, hp]
  · intro a ha hh; simp [extract_entry, ha, hh, h0]

/-- C2, witness: the amended characterization applied to concrete
containers (absent element; relative href; absolute href). -/
theorem claim_C2_witness :
    (extract_entry blankLi).author_url = some "" ∧
    (extract_entry ⟨none, none, none, some ⟨some "/biri/ben", "ben"⟩,
      none, none, none⟩).author_url =
      some (BASE ++ "/biri/ben") ∧
    (extract_entry ⟨none, none, none, none, none,
      some ⟨some "https://x.org/e/1", "date"⟩, none⟩).permalink =
      some "https://x.org/e/1" :=
  ⟨(claim_C2_amended blankLi).1.1 rfl,
   (claim_C2_amended ⟨none, none, none, some ⟨some "/biri/ben", "ben"⟩,
      none, none, none⟩).1.2.1 ⟨some "/biri/ben", "ben"⟩ "/biri/ben"
      rfl rfl (by decide),
   (claim_C2_amended ⟨none, none, none, none, none,
      some ⟨some "https://x.org/e/1", "date"⟩, none⟩).2.2.2.1
      ⟨some "https://x.org/e/1", "date"⟩ "https://x.org/e/1"
      rfl rfl (by decide)⟩

/-! ## Claim C3 -/

/-- C3: on the 3-page fixture (pages {1,2,3}, {3,4,5}, {6}; page 3 has
no next link), a run with no page budget yields exactly the six records
in order 1..6, visits 3 pages, and stops because the pagination
resolver signalled absence, not because of the budget. -/
theorem claim_C3 :
    scrape fixRender none 10 "python--12345" =
      some ⟨[fixRec "1", fixRec "2", fixRec "3", fixRec "4", fixRec "5",
             fixRec "6"], 3, StopReason.endOfPages⟩ ∧
    [fixRec "1", fixRec "2", fixRec "3", fixRec "4", fixRec "5",
     fixRec "6"].map (fun e => e.entry_id) =
      ["1", "2", "3", "4", "5", "6"] := by
  decide

/-! ## Claim C4 -/

/-- C4: a budget of `0` behaves identically to no budget; a run without
budget can only stop via end-of-pagination; when a positive budget is
reached by the page counter the loop stops immediately after
deduplicating the current page (before resolving any next page), with
reason budget; on the fixture, budget 1 stops after page 1 with that
page's three records. -/
theorem claim_C4 :
    (∀ (render : String → Option Doc) (fuel : Nat) (url : String)
       (pv : Nat) (seen : List String) (acc : List EntryRecord),
       scrapeLoop render (some 0) fuel url pv seen acc =
         scrapeLoop render none fuel url pv seen acc) ∧
    (∀ (render : String → Option Doc) (fuel : Nat) (url : String)
       (pv : Nat) (seen : List String) (acc : List EntryRecord)
       (r : CrawlResult),
       scrapeLoop render none fuel url pv seen acc = some r →
       r.reason = StopReason.endOfPages) ∧
    (∀ (render : String → Option Doc) (m : Int) (fuel : Nat) (url : String)
       (pv : Nat) (seen : List String) (acc : List EntryRecord) (doc : Doc),
       render url = some doc → 0 < m → m ≤ ((pv + 1 : Nat) : Int) →
       scrapeLoop render (some m) (fuel + 1) url pv seen acc =
         some ⟨(dedupPage seen acc 0 (parse_entries_from_html doc)).2.1,
               pv + 1, StopReason.budget⟩) ∧
    scrape fixRender (some 1) 10 "python--12345" =
      some ⟨[fixRec "1", fixRec "2", fixRec "3"], 1, StopReason.budget⟩ := by
  refine ⟨scrapeLoop_budget_zero, scrapeLoop_none_reason, ?_, by decide⟩
  intro render m fuel url pv seen acc doc hr hm hle
  exact scrapeLoop_budget_stop render m fuel url pv seen acc doc hr
    (by omega) hle

/-- C4, witness: the three universally quantified parts instantiated on
the fixture. -/
theorem claim_C4_witness :
    scrapeLoop fixRender (some 0) 10 fixStartUrl 0 [] [] =
      scrapeLoop fixRender none 10 fixStartUrl 0 [] [] ∧
    (⟨[fixRec "1", fixRec "2", fixRec "3", fixRec "4", fixRec "5",
       fixRec "6"], 3, StopReason.endOfPages⟩ : CrawlResult).reason =
      StopReason.endOfPages ∧
    scrapeLoop fixRender (some 1) (0 + 1) fixStartUrl 0 [] [] =
      some ⟨(dedupPage [] [] 0 (parse_entries_from_html fixDoc1)).2.1,
            0 + 1, StopReason.budget⟩ :=
  ⟨claim_C4.1 fixRender 10 fixStartUrl 0 [] [],
   claim_C4.2.1 fixRender 10 fixStartUrl 0 [] [] _ (by decide),
   claim_C4.2.2.1 fixRender 1 0 fixStartUrl 0 [] [] fixDoc1 (by decide)
     (by decide) (by decide)⟩

/-! ## Claim C6 -/

/-- C6: with neither a rel="next" link nor a pager next link, the
resolver returns the absence signal (Python `None`), not an error; with
a next link whose href is relative (begins with `/`), it returns that
href resolved against the current page's own address. -/
theorem claim_C6 :
    (∀ (d : Doc) (cur : String), d.relNext = none → d.pagerNext = none →
      get_next_page_url_from_html d cur = some none) ∧
    (∀ (d : Doc) (cur : String) (a : Anchor) (hs u : String),
      (d.relNext <|> d.pagerNext) = some a → a.href = some hs →
      pyStartswith "/".data hs.data = true → urljoin cur hs = some u →
      get_next_page_url_from_html d cur = some (some u)) ∧
    get_next_page_url_from_html fixDoc1 fixStartUrl =
      some (some fixPage2Url) := by
  refine ⟨?_, ?_, by decide⟩
  · intro d cur h1 h2
    simp [get_next_page_url_from_html, h1, h2]
  · intro d cur a hs u ha hh hp hj
    have hne : hs ≠ "" := by
      intro h0
      rw [h0] at hp
      exact absurd hp (by decide)
    simp [get_next_page_url_from_html, ha, hh, hne, hj]

/-- C6, witness: the two parts instantiated on the fixture pages. -/
theorem claim_C6_witness :
    get_next_page_url_from_html fixDoc3 fixPage3Url = some none ∧
    get_next_page_url_from_html fixDoc2 fixPage2Url =
      some (some fixPage3Url) :=
  ⟨claim_C6.1 fixDoc3 fixPage3Url rfl rfl,
   claim_C6.2.1 fixDoc2 fixPage2Url ⟨some "/python--12345?p=3", "next"⟩
     "/python--12345?p=3" fixPage3Url rfl rfl (by decide) (by decide)⟩

/-! ## Claim C7 -/

/-- C7: the extractor is total at the level of the parsed page: with no
matching container in either selector it returns the empty list, every
matched container yields exactly one record, and a container with all
sub-elements missing yields a record whose string fields are all empty
(with present-but-empty link fields). -/
theorem claim_C7 :
    (∀ d : Doc, d.liDataId = [] → d.liStream = [] →
      parse_entries_from_html d = []) ∧
    (∀ d : Doc, (parse_entries_from_html d).length =
      (if d.liDataId.isEmpty then d.liStream else d.liDataId).length) ∧
    extract_entry blankLi = ⟨"", "", some "", "", some "", ""⟩ := by
  refine ⟨?_, ?_, by decide⟩
  · intro d h1 h2
    simp [parse_entries_from_html, h1, h2]
  · intro d
    simp [parse_entries_from_html]

/-- C7, witness: the empty-page part evaluated on a concrete empty
page. -/
theorem claim_C7_witness : parse_entries_from_html ⟨[], [], none, none⟩ = [] :=
  claim_C7.1 ⟨[], [], none, none⟩ rfl rfl

/-! ## Claim C8 -/

/-- C8: the serialized output is a JSON array with one element per
accumulated record, in the same order, and every element is an object
whose key list is exactly the six record keys in declaration order. -/
theorem claim_C8 : ∀ es : List EntryRecord,
    ∃ l, dump_output es = JValue.jarr l ∧ l.length = es.length ∧
      ∀ v ∈ l, ∃ fs, v = JValue.jobj fs ∧
        fs.map Prod.fst =
          ["entry_id", "author", "author_url", "date", "permalink",
           "content"] := by
  intro es
  refine ⟨es.map entry_to_json, rfl, by simp, ?_⟩
  intro v hv
  rcases List.mem_map.mp hv with ⟨e, _, rfl⟩
  exact ⟨_, rfl, rfl⟩

/-- C8, witness: the round-trip shape on the fixture's six records. -/
theorem claim_C8_witness :
    ∃ l, dump_output [fixRec "1", fixRec "2", fixRec "3", fixRec "4",
        fixRec "5", fixRec "6"] = JValue.jarr l ∧
      l.length = [fixRec "1", fixRec "2", fixRec "3", fixRec "4",
        fixRec "5", fixRec "6"].length ∧
      ∀ v ∈ l, ∃ fs, v = JValue.jobj fs ∧
        fs.map Prod.fst =
          ["entry_id", "author", "author_url", "date", "permalink",
           "content"] :=
  claim_C8 [fixRec "1", fixRec "2", fixRec "3", fixRec "4", fixRec "5",
    fixRec "6"]

/-! ## Claim C9 -/

/-- C9: the crawl invariant — every accumulated record has a non-empty
identity and identities are pairwise distinct — is preserved by every
per-page dedup step, and consequently holds of the record collection of
every successful run. -/
theorem claim_C9 :
    (∀ (es : List EntryRecord) (seen : List String)
       (acc : List EntryRecord) (n : Nat), CrawlInv seen acc →
       CrawlInv (dedupPage seen acc n es).1 (dedupPage seen acc n es).2.1) ∧
    (∀ (render : String → Option Doc) (mp : Option Int) (fuel : Nat)
       (topic : String) (r : CrawlResult),
       scrape render mp fuel topic = some r →
       (∀ e ∈ r.entries, e.entry_id ≠ "") ∧
       (r.entries.map (fun e => e.entry_id)).Nodup) := by
  constructor
  · exact fun es seen acc n h => dedupPage_inv es seen acc n h
  · intro render mp fuel topic r h
    rw [scrape] at h
    cases hn : normalize_topic_url topic with
    | none => rw [hn] at h; simp at h
    | some s =>
      rw [hn] at h
      simp only at h
      refine scrapeLoop_inv render mp fuel s 0 [] [] r ?_ h
      refine ⟨by simp, by simp, by simp⟩

/-- C9, witness: the run-level invariant on the fixture run. -/
theorem claim_C9_witness :
    (∀ e ∈ [fixRec "1", fixRec "2", fixRec "3", fixRec "4", fixRec "5",
      fixRec "6"], e.entry_id ≠ "") ∧
    ([fixRec "1", fixRec "2", fixRec "3", fixRec "4", fixRec "5",
      fixRec "6"].map (fun e => e.entry_id)).Nodup := by
  have h := claim_C9.2 fixRender none 10 "python--12345"
    ⟨[fixRec "1", fixRec "2", fixRec "3", fixRec "4", fixRec "5",
      fixRec "6"], 3, StopReason.endOfPages⟩ (by decide)
  exact h

/-! ## Lemmas about the string-splitting primitives -/

theorem splitFirst_eq_of_not_mem {c : Char} {l : List Char} (h : c ∉ l) :
    splitFirst c l = (l, none) := by
  induction l with
  | nil => rfl
  | cons a as ih =>
    have hac : a ≠ c := fun he => h (he ▸ List.mem_cons_self a as)
    simp only [splitFirst, if_neg hac]
    rw [ih (fun hm => h (List.mem_cons_of_mem a hm))]

theorem splitFirst_append_cons {c : Char} {l : List Char} (m : List Char)
    (h : c ∉ l) : splitFirst c (l ++ c :: m) = (l, some m) := by
  induction l with
  | nil => simp [splitFirst]
  | cons a as ih =>
    have hac : a ≠ c := fun he => h (he ▸ List.mem_cons_self a as)
    have h2 := ih (fun hm => h (List.mem_cons_of_mem a hm))
    simp only [List.cons_append, splitFirst, if_neg hac, List.append_eq, h2]

theorem not_mem_splitFirst_fst (c : Char) (l : List Char) :
    c ∉ (splitFirst c l).1 := by
  induction l with
  | nil => simp [splitFirst]
  | cons a as ih =>
    by_cases hac : a = c
    · simp [splitFirst, hac]
    · simp only [splitFirst, if_neg hac]
      intro hm
      rcases List.mem_cons.mp hm with he | hm2
      · exact hac he.symm
      · exact ih hm2

theorem mem_splitFirst_fst {a c : Char} {l : List Char}
    (h : a ∈ (splitFirst c l).1) : a ∈ l := by
  induction l with
  | nil => simp [splitFirst] at h
  | cons b bs ih =>
    by_cases hbc : b = c
    · simp [splitFirst, hbc] at h
    · simp only [splitFirst, if_neg hbc] at h
      rcases List.mem_cons.mp h with he | hm
      · exact he ▸ List.mem_cons_self b bs
      · exact List.mem_cons_of_mem b (ih hm)

theorem splitFirst_eq_some {c : Char} {l b t : List Char}
    (h : splitFirst c l = (b, some t)) : l = b ++ c :: t := by
  induction l generalizing b with
  | nil => simp [splitFirst] at h
  | cons a as ih =>
    by_cases hac : a = c
    · simp only [splitFirst, if_pos hac, Prod.mk.injEq,
        Option.some.injEq] at h
      obtain ⟨rfl, rfl⟩ := h
      simp [hac]
    · simp only [splitFirst, if_neg hac, Prod.mk.injEq] at h
      obtain ⟨hb, ht⟩ := h
      have hspec : splitFirst c as = ((splitFirst c as).1, some t) := by
        rw [← ht]
      have has := ih hspec
      rw [← hb, List.cons_append]
      exact congrArg (a :: ·) has

theorem rsplitLast_eq_some {c : Char} {s pre post : List Char}
    (h : rsplitLast c s = some (pre, post)) : s = pre ++ c :: post := by
  rw [rsplitLast] at h
  cases hsf : splitFirst c s.reverse with
  | mk b o =>
    cases o with
    | none => rw [hsf] at h; simp at h
    | some t =>
      rw [hsf] at h
      simp only [Option.some.injEq, Prod.mk.injEq] at h
      obtain ⟨rfl, rfl⟩ := h
      have hs := splitFirst_eq_some hsf
      have : s.reverse.reverse = (b ++ c :: t).reverse := by rw [← hs]
      simpa [List.reverse_append] using this

theorem takeWhile_append_all (p : Char → Bool) (l m : List Char)
    (h : ∀ x ∈ l, p x = true) :
    (l ++ m).takeWhile p = l ++ m.takeWhile p := by
  induction l with
  | nil => simp
  | cons a as ih =>
    have ha : p a = true := h a (List.mem_cons_self a as)
    simp only [List.cons_append, List.takeWhile_cons, ha, if_true]
    rw [ih (fun x hx => h x (List.mem_cons_of_mem a hx))]

theorem dropWhile_append_all (p : Char → Bool) (l m : List Char)
    (h : ∀ x ∈ l, p x = true) :
    (l ++ m).dropWhile p = m.dropWhile p := by
  induction l with
  | nil => simp
  | cons a as ih =>
    have ha : p a = true := h a (List.mem_cons_self a as)
    simp only [List.cons_append, List.dropWhile_cons, ha, if_true]
    exact ih (fun x hx => h x (List.mem_cons_of_mem a hx))

theorem dropWhile_head_false {p : Char → Bool} {l : List Char} {a : Char}
    (h : (l.dropWhile p).head? = some a) : p a = false := by
  induction l with
  | nil => simp at h
  | cons b bs ih =>
    by_cases hb : p b = true
    · rw [List.dropWhile_cons, if_pos hb] at h
      exact ih h
    · rw [List.dropWhile_cons, if_neg hb] at h
      obtain rfl := Option.some.inj h
      exact Bool.eq_false_iff.mpr hb

theorem dropWhile_is_suffix (p : Char → Bool) (l : List Char) :
    ∃ t, t ++ l.dropWhile p = l := by
  induction l with
  | nil => exact ⟨[], rfl⟩
  | cons b bs ih =>
    by_cases hb : p b = true
    · obtain ⟨t, ht⟩ := ih
      exact ⟨b :: t, by simp [List.dropWhile_cons, hb, ht]⟩
    · exact ⟨[], by simp [List.dropWhile_cons, hb]⟩

theorem mem_dropWhile {p : Char → Bool} {l : List Char} {a : Char}
    (h : a ∈ l.dropWhile p) : a ∈ l := by
  obtain ⟨t, ht⟩ := dropWhile_is_suffix p l
  rw [← ht]
  exact List.mem_append_right t h

/-! ## Lemmas about the Python strips -/

theorem pyRStrip_isTake (p : Char → Bool) (l : List Char) :
    ∃ t, pyRStrip p l ++ t = l := by
  obtain ⟨t, ht⟩ := dropWhile_is_suffix p l.reverse
  refine ⟨t.reverse, ?_⟩
  have : (t ++ l.reverse.dropWhile p).reverse = l.reverse.reverse := by
    rw [ht]
  simpa [pyRStrip, List.reverse_append] using this

theorem head?_append_of_some {l t : List Char} {a : Char}
    (h : l.head? = some a) : (l ++ t).head? = some a := by
  cases l with
  | nil => simp at h
  | cons b bs => simpa using h

theorem mem_pyRStrip {p : Char → Bool} {l : List Char} {a : Char}
    (h : a ∈ pyRStrip p l) : a ∈ l := by
  obtain ⟨t, ht⟩ := pyRStrip_isTake p l
  rw [← ht]
  exact List.mem_append_left t h

theorem pyRStrip_getLast {p : Char → Bool} {l : List Char} {a : Char}
    (h : (pyRStrip p l).getLast? = some a) : p a = false := by
  rw [pyRStrip, List.getLast?_reverse] at h
  exact dropWhile_head_false h

theorem pyStrip_head {p : Char → Bool} {l : List Char} {a : Char}
    (h : (pyStrip p l).head? = some a) : p a = false := by
  rw [pyStrip] at h
  obtain ⟨t, ht⟩ := pyRStrip_isTake p (pyLStrip p l)
  have : (pyLStrip p l).head? = some a := by
    rw [← ht]
    exact head?_append_of_some h
  exact dropWhile_head_false this

theorem pyStrip_getLast {p : Char → Bool} {l : List Char} {a : Char}
    (h : (pyStrip p l).getLast? = some a) : p a = false :=
  pyRStrip_getLast h

theorem mem_pyStrip {p : Char → Bool} {l : List Char} {a : Char}
    (h : a ∈ pyStrip p l) : a ∈ l :=
  mem_dropWhile (mem_pyRStrip h)

theorem contains_eq_false_of_not_mem {l : List Char} {c : Char}
    (h : c ∉ l) : l.contains c = false := by
  cases hb : l.contains c with
  | false => rfl
  | true => exact absurd (List.mem_of_elem_eq_true hb) h

/-! ## Path characters of `urlparse` -/

theorem splitFragQuery_path (u : List Char) :
    '?' ∉ (splitFragQuery u).1 ∧ '#' ∉ (splitFragQuery u).1 := by
  constructor
  · exact not_mem_splitFirst_fst '?' _
  · intro hm
    exact not_mem_splitFirst_fst '#' u (mem_splitFirst_fst hm)

theorem mem_pySplitparams_fst {a : Char} {u : List Char}
    (h : a ∈ (pySplitparams u).1) : a ∈ u := by
  rw [pySplitparams] at h
  cases hrs : rsplitLast '/' u with
  | none =>
    rw [hrs] at h
    simp only at h
    cases hsf : splitFirst ';' u with
    | mk b o =>
      cases o with
      | none => rw [hsf] at h; exact h
      | some x =>
        rw [hsf] at h
        simp only at h
        have hb : a ∈ (splitFirst ';' u).1 := by rw [hsf]; exact h
        exact mem_splitFirst_fst hb
  | some pp =>
    obtain ⟨pre, post⟩ := pp
    rw [hrs] at h
    simp only at h
    have hu := rsplitLast_eq_some hrs
    cases hsf : splitFirst ';' post with
    | mk b o =>
      cases o with
      | none => rw [hsf] at h; exact h
      | some x =>
        rw [hsf] at h
        simp only at h
        rw [hu]
        rcases List.mem_append.mp h with hma | hmb
        · exact List.mem_append_left _ hma
        · rcases List.mem_cons.mp hmb with he | hmc
          · exact List.mem_append_right _ (he ▸ List.mem_cons_self _ _)
          · have hbp : a ∈ (splitFirst ';' post).1 := by rw [hsf]; exact hmc
            exact List.mem_append_right _
              (List.mem_cons_of_mem _ (mem_splitFirst_fst hbp))

theorem urlsplitCore_path {s0 u0 : List Char} {r : SplitParts}
    (h : urlsplitCore s0 u0 = some r) : '?' ∉ r.path ∧ '#' ∉ r.path := by
  rw [urlsplitCore] at h
  cases hns : netlocSplit
      (schemeSplit (removeUnsafe s0) (removeUnsafe u0)).2 with
  | none => rw [hns] at h; simp at h
  | some nl =>
    obtain ⟨netloc, url3⟩ := nl
    rw [hns] at h
    simp only at h
    obtain rfl := Option.some.inj h
    exact ⟨(splitFragQuery_path url3).1, (splitFragQuery_path url3).2⟩

theorem urlparseCore_path {s0 u0 : List Char} {r : UrlParts}
    (h : urlparseCore s0 u0 = some r) : '?' ∉ r.path ∧ '#' ∉ r.path := by
  rw [urlparseCore] at h
  cases hsp : urlsplitCore s0 u0 with
  | none => rw [hsp] at h; simp at h
  | some rs =>
    rw [hsp] at h
    simp only at h
    have hps := urlsplitCore_path hsp
    by_cases hg : (usesParams.contains rs.scheme &&
        rs.path.contains ';') = true
    · rw [if_pos hg] at h
      obtain rfl := Option.some.inj h
      exact ⟨fun hm => hps.1 (mem_pySplitparams_fst hm),
             fun hm => hps.2 (mem_pySplitparams_fst hm)⟩
    · rw [if_neg hg] at h
      obtain rfl := Option.some.inj h
      exact hps

/-! ## Shape of every `normalize_topic_url` output -/

theorem base_slash_data (q s : List Char) :
    BASE.data ++ '/' :: (q ++ s) = "https://eksisozluk.com/".data ++ q ++ s := by
  rw [show "https://eksisozluk.com/".data = BASE.data ++ ['/'] from by decide]
  simp [List.append_assoc]

theorem pyStrip_slash_head (l : List Char) :
    (pyStrip isSlash l).head? ≠ some '/' := by
  intro h
  have := pyStrip_head h
  simp [isSlash] at this

theorem pyStrip_slash_last (l : List Char) :
    (pyStrip isSlash l).getLast? ≠ some '/' := by
  intro h
  have := pyStrip_getLast h
  simp [isSlash] at this

/-- Every address `normalize_topic_url` produces is the base origin, a
slash-stripped slug and the first-page marker. -/
theorem normalize_shape {t u : String} (h : normalize_topic_url t = some u) :
    ∃ q : List Char,
      u = String.mk ("https://eksisozluk.com/".data ++ q ++ "?p=1".data) ∧
      q.head? ≠ some '/' ∧ q.getLast? ≠ some '/' := by
  rw [normalize_topic_url] at h
  by_cases hs : pyStartswith "http".data t.data = true
  · rw [if_pos hs] at h
    cases hp : urlparseCore [] t.data with
    | none => rw [hp] at h; simp at h
    | some r =>
      rw [hp] at h
      simp only at h
      have hu := Option.some.inj h
      refine ⟨pyStrip isSlash r.path, ?_, pyStrip_slash_head _,
        pyStrip_slash_last _⟩
      rw [← hu, base_slash_data]
  · rw [if_neg hs] at h
    have hu := Option.some.inj h
    refine ⟨pyStrip isSlash (pyStrip pyIsSpace t.data), ?_,
      pyStrip_slash_head _, pyStrip_slash_last _⟩
    rw [← hu, base_slash_data]

/-! ## Claim C5 -/

/-- C5: both the bare slug and the full URL with a stray query
normalize to the canonical first-page address; every full-URL input
yields the base origin, a path free of `?` and `#` (so the caller's
query and fragment are gone), and the `?p=1` marker; every bare slug is
stripped of surrounding whitespace, then slashes, before the marker is
appended. -/
theorem claim_C5 :
    normalize_topic_url "python--12345" =
      some "https://eksisozluk.com/python--12345?p=1" ∧
    normalize_topic_url "https://eksisozluk.com/python--12345?p=7" =
      some "https://eksisozluk.com/python--12345?p=1" ∧
    (∀ t u : String, pyStartswith "http".data t.data = true →
      normalize_topic_url t = some u →
      ∃ p : List Char,
        u.data = "https://eksisozluk.com/".data ++ p ++ "?p=1".data ∧
        '?' ∉ p ∧ '#' ∉ p) ∧
    (∀ t : String, pyStartswith "http".data t.data = false →
      normalize_topic_url t =
        some (String.mk (BASE.data ++ '/' ::
          (pyStrip isSlash (pyStrip pyIsSpace t.data) ++ "?p=1".data)))) := by
  refine ⟨by decide, by decide, ?_, ?_⟩
  · intro t u hs h
    rw [normalize_topic_url, if_pos hs] at h
    cases hp : urlparseCore [] t.data with
    | none => rw [hp] at h; simp at h
    | some r =>
      rw [hp] at h
      simp only at h
      have hu := Option.some.inj h
      refine ⟨pyStrip isSlash r.path, ?_, ?_, ?_⟩
      · rw [← hu]
        exact base_slash_data _ _
      · intro hm
        exact (urlparseCore_path hp).1 (mem_pyStrip hm)
      · intro hm
        exact (urlparseCore_path hp).2 (mem_pyStrip hm)
  · intro t hs
    have hs2 : ¬pyStartswith "http".data t.data = true := by simp [hs]
    rw [normalize_topic_url, if_neg hs2]

/-- C5, witness: the full-URL part instantiated on the spec's example
with a stray query, and the slug part on a whitespace-wrapped slug. -/
theorem claim_C5_witness :
    (∃ p : List Char,
      ("https://eksisozluk.com/python--12345?p=1" : String).data =
        "https://eksisozluk.com/".data ++ p ++ "?p=1".data ∧
      '?' ∉ p ∧ '#' ∉ p) ∧
    normalize_topic_url "  gundem  " =
      some (String.mk (BASE.data ++ '/' ::
        (pyStrip isSlash (pyStrip pyIsSpace ("  gundem  " : String).data) ++
          "?p=1".data))) :=
  ⟨claim_C5.2.2.1 "https://eksisozluk.com/python--12345?p=7"
      "https://eksisozluk.com/python--12345?p=1" (by decide) (by decide),
   claim_C5.2.2.2 "  gundem  " (by decide)⟩

/-! ## Re-normalizing a normalized address (claim C10) -/

theorem pyStartswith_of_append (pre rest : List Char) :
    pyStartswith pre (pre ++ rest) = true := by
  induction pre with
  | nil => cases rest <;> rfl
  | cons a as ih =>
    simp only [pyStartswith, List.cons_append, List.isPrefixOf,
      beq_self_eq_true, Bool.true_and]
    exact ih

theorem removeUnsafe_append (x y : List Char) :
    removeUnsafe (x ++ y) = removeUnsafe x ++ removeUnsafe y := by
  simp [removeUnsafe, List.filter_append]

/-- Evaluation of the scheme split on an `https:`-prefixed address. -/
theorem schemeSplit_https (rest : List Char) :
    schemeSplit [] ("https".data ++ ':' :: rest) = ("https".data, rest) := by
  simp only [schemeSplit,
    splitFirst_append_cons rest (show ':' ∉ "https".data by decide)]
  rw [if_pos (by decide)]
  rw [show ("https".data).map Char.toLower = "https".data from by decide]

/-- Evaluation of the netloc split on the fixed base origin. -/
theorem netlocSplit_eksi (rest : List Char) :
    netlocSplit ("//eksisozluk.com/".data ++ rest) =
      some ("eksisozluk.com".data, '/' :: rest) := by
  have hshape : "//eksisozluk.com/".data ++ rest =
      '/' :: '/' :: ("eksisozluk.com".data ++ ('/' :: rest)) := by
    rw [show "//eksisozluk.com/".data =
      '/' :: '/' :: ("eksisozluk.com".data ++ ['/']) from by decide]
    simp [List.append_assoc]
  have htw : List.takeWhile (fun c => !(c == '/' || c == '?' || c == '#'))
      ("eksisozluk.com".data ++ ('/' :: rest)) = "eksisozluk.com".data := by
    rw [takeWhile_append_all (fun c => !(c == '/' || c == '?' || c == '#'))
      ("eksisozluk.com".data) ('/' :: rest) (by decide)]
    rw [List.takeWhile_cons, if_neg (by decide)]
    simp
  have hdw : List.dropWhile (fun c => !(c == '/' || c == '?' || c == '#'))
      ("eksisozluk.com".data ++ ('/' :: rest)) = '/' :: rest := by
    rw [dropWhile_append_all (fun c => !(c == '/' || c == '?' || c == '#'))
      ("eksisozluk.com".data) ('/' :: rest) (by decide)]
    rw [List.dropWhile_cons, if_neg (by decide)]
  rw [hshape]
  simp only [netlocSplit]
  rw [htw, hdw]
  rw [if_neg (by decide), if_neg (by decide)]

/-- Evaluation of the fragment/query split on a path with no `#` and a
single trailing `?p=1` marker. -/
theorem splitFragQuery_marker (p : List Char) (h1 : '?' ∉ p)
    (h2 : '#' ∉ p) :
    splitFragQuery ('/' :: (p ++ "?p=1".data)) =
      ('/' :: p, "p=1".data, []) := by
  have hnf : '#' ∉ '/' :: (p ++ "?p=1".data) := by
    intro hm
    rcases List.mem_cons.mp hm with he | hm2
    · exact absurd he (by decide)
    · rcases List.mem_append.mp hm2 with hma | hmb
      · exact h2 hma
      · exact absurd hmb (by decide)
  have hq : '?' ∉ '/' :: p := by
    intro hm
    rcases List.mem_cons.mp hm with he | hm2
    · exact absurd he (by decide)
    · exact h1 hm2
  have hsf2 : splitFirst '?' ('/' :: (p ++ "?p=1".data)) =
      ('/' :: p, some "p=1".data) := by
    rw [show "?p=1".data = '?' :: "p=1".data from by decide,
      ← List.cons_append]
    exact splitFirst_append_cons _ hq
  rw [splitFragQuery, splitFirst_eq_of_not_mem hnf]
  simp only
  rw [hsf2]
  rfl

/-- Stripping slashes from `'/' :: p` gives back `p` when `p` neither
starts nor ends with a slash. -/
theorem pyStrip_slash_cons (p : List Char) (h7 : p.head? ≠ some '/')
    (h8 : p.getLast? ≠ some '/') : pyStrip isSlash ('/' :: p) = p := by
  have hdw : List.dropWhile isSlash ('/' :: p) = p := by
    rw [List.dropWhile_cons, if_pos (by decide : isSlash '/' = true)]
    cases hp : p with
    | nil => simp
    | cons a as =>
      have hha : p.head? = some a := by rw [hp]; rfl
      have hne : a ≠ '/' := fun he => h7 (by rw [hha, he])
      have ha : isSlash a = false := by simp [isSlash, hne]
      rw [List.dropWhile_cons, if_neg (by simp [ha])]
  rw [pyStrip, pyLStrip, hdw, pyRStrip]
  cases hrev : p.reverse with
  | nil =>
    have hp : p = [] := by simpa using congrArg List.reverse hrev
    simp [hp]
  | cons a as =>
    have hlast : p.getLast? = some a := by
      rw [← List.head?_reverse, hrev]
      rfl
    have hne : a ≠ '/' := fun he => h8 (by rw [hlast, he])
    have ha : isSlash a = false := by simp [isSlash, hne]
    rw [List.dropWhile_cons, if_neg (by simp [ha]), ← hrev,
      List.reverse_reverse]

/-- A canonical address built from a marker-free slug is a fixed point
of the normalizer. -/
theorem normalize_fixpoint (p : List Char)
    (h1 : '?' ∉ p) (h2 : '#' ∉ p) (h3 : ';' ∉ p)
    (h4 : '\t' ∉ p) (h5 : '\r' ∉ p) (h6 : '\n' ∉ p)
    (h7 : p.head? ≠ some '/') (h8 : p.getLast? ≠ some '/') :
    normalize_topic_url
        (String.mk ("https://eksisozluk.com/".data ++ p ++ "?p=1".data)) =
      some (String.mk
        ("https://eksisozluk.com/".data ++ p ++ "?p=1".data)) := by
  have hC2 : "https://eksisozluk.com/".data =
      "https".data ++ ':' :: "//eksisozluk.com/".data := by decide
  have hLshape : "https://eksisozluk.com/".data ++ p ++ "?p=1".data =
      "https".data ++ ':' :: ("//eksisozluk.com/".data ++
        (p ++ "?p=1".data)) := by
    rw [hC2]
    simp [List.append_assoc]
  have hstart : pyStartswith "http".data
      ("https://eksisozluk.com/".data ++ p ++ "?p=1".data) = true := by
    rw [show "https://eksisozluk.com/".data =
          "http".data ++ "s://eksisozluk.com/".data from by decide,
      List.append_assoc, List.append_assoc]
    exact pyStartswith_of_append _ _
  have hclean : removeUnsafe
      ("https://eksisozluk.com/".data ++ p ++ "?p=1".data) =
      "https://eksisozluk.com/".data ++ p ++ "?p=1".data := by
    rw [removeUnsafe_append, removeUnsafe_append]
    rw [show removeUnsafe "https://eksisozluk.com/".data =
      "https://eksisozluk.com/".data from by decide]
    rw [show removeUnsafe "?p=1".data = "?p=1".data from by decide]
    have hfp : removeUnsafe p = p := by
      rw [removeUnsafe]
      apply List.filter_eq_self.mpr
      intro c hc
      have hcs : c ≠ '\t' ∧ c ≠ '\r' ∧ c ≠ '\n' :=
        ⟨fun he => h4 (he ▸ hc), fun he => h5 (he ▸ hc),
         fun he => h6 (he ▸ hc)⟩
      simp [hcs.1, hcs.2.1, hcs.2.2]
    rw [hfp]
  have hsplit : urlsplitCore []
      ("https://eksisozluk.com/".data ++ p ++ "?p=1".data) =
      some ⟨"https".data, "eksisozluk.com".data, '/' :: p,
        "p=1".data, []⟩ := by
    rw [urlsplitCore]
    rw [show removeUnsafe ([] : List Char) = [] from rfl, hclean]
    rw [hLshape, schemeSplit_https]
    simp only
    rw [netlocSplit_eksi]
    simp only
    rw [splitFragQuery_marker p h1 h2]
  have hcontains : ('/' :: p).contains ';' = false := by
    apply contains_eq_false_of_not_mem
    intro hm
    rcases List.mem_cons.mp hm with he | hm2
    · exact absurd he (by decide)
    · exact h3 hm2
  have hparse : urlparseCore []
      ("https://eksisozluk.com/".data ++ p ++ "?p=1".data) =
      some ⟨"https".data, "eksisozluk.com".data, '/' :: p, [],
        "p=1".data, []⟩ := by
    rw [urlparseCore, hsplit]
    simp only [hcontains, Bool.and_false, Bool.false_eq_true, if_false]
  have hstart2 : pyStartswith "http".data
      (String.mk ("https://eksisozluk.com/".data ++ p ++
        "?p=1".data)).data = true := hstart
  rw [normalize_topic_url, if_pos hstart2]
  have hparse2 : urlparseCore [] (String.mk
      ("https://eksisozluk.com/".data ++ p ++ "?p=1".data)).data =
      some ⟨"https".data, "eksisozluk.com".data, '/' :: p, [],
        "p=1".data, []⟩ := hparse
  rw [hparse2]
  simp only
  rw [pyStrip_slash_cons p h7 h8, base_slash_data]

/-! ## Claim C10 -/

/-- C10, counterexample: `normalize` is not idempotent.  A slug
containing `?` survives into the canonical address; re-normalizing that
address parses it as a URL and cuts the slug at its first `?`. -/
theorem claim_C10_counterexample :
    normalize_topic_url "a?b" = some "https://eksisozluk.com/a?b?p=1" ∧
    normalize_topic_url "https://eksisozluk.com/a?b?p=1" =
      some "https://eksisozluk.com/a?p=1" ∧
    ("https://eksisozluk.com/a?p=1" : String) ≠
      "https://eksisozluk.com/a?b?p=1" := by
  decide

/-- C10, amended: the normalizer is idempotent on every output whose
slug part contains none of `?`, `#`, `;`, tab, CR or LF.  (A slug
containing `?` or `#` is truncated on the second pass by the query or
fragment split, `;` by the params split, and tab/CR/LF are deleted as
unsafe URL bytes, so those outputs are not fixed points.) -/
theorem claim_C10_amended : ∀ (t u : String) (p : List Char),
    normalize_topic_url t = some u →
    u.data = "https://eksisozluk.com/".data ++ p ++ "?p=1".data →
    '?' ∉ p → '#' ∉ p → ';' ∉ p → '\t' ∉ p → '\r' ∉ p → '\n' ∉ p →
    normalize_topic_url u = some u := by
  intro t u p hn hu h1 h2 h3 h4 h5 h6
  obtain ⟨q, hq, hqh, hql⟩ := normalize_shape hn
  have hdata : "https://eksisozluk.com/".data ++ p ++ "?p=1".data =
      "https://eksisozluk.com/".data ++ q ++ "?p=1".data := by
    rw [← hu, hq]
  have hpq : p = q := by
    rw [List.append_assoc, List.append_assoc] at hdata
    have h9 := List.append_cancel_left hdata
    exact List.append_cancel_right h9
  rw [hpq] at h1 h2 h3 h4 h5 h6
  rw [hq]
  exact normalize_fixpoint q h1 h2 h3 h4 h5 h6 hqh hql

/-- C10, witness: idempotence on the canonical address of the running
example. -/
theorem claim_C10_witness :
    normalize_topic_url "https://eksisozluk.com/python--12345?p=1" =
      some "https://eksisozluk.com/python--12345?p=1" :=
  claim_C10_amended "python--12345"
    "https://eksisozluk.com/python--12345?p=1" "python--12345".data
    (by decide) (by decide) (by decide) (by decide) (by decide)
    (by decide) (by decide) (by decide)
